import Mathlib

/-!
Verification of the ticket-to-report extraction pipeline of `openglpi`
(`glpi_app/main.py`, `glpi_connector.py`, `llm_service.py`,
`pdf_generator.py`).  Strings are modelled as `List Char`; the Python
`re` patterns used by the extraction functions are embedded as direct
scanners with Python's leftmost / lazy / greedy semantics.
-/

namespace OpenGlpi

/-- Python `str.lower` on the ASCII text this program handles. -/
def pyLower (s : List Char) : List Char := s.map Char.toLower

/-- Python whitespace, the default charset of `str.strip()`. -/
def isPySpace (c : Char) : Bool :=
  c == ' ' || c == '\t' || c == '\n' || c == '\r' || c == '\x0b' || c == '\x0c'

/-- Python regex `\w` on ASCII input. -/
def isWordChar (c : Char) : Bool := c.isAlphanum || c == '_'

/-- Python regex character class `[\w\s]` of the affected-users pattern. -/
def isWordSpace (c : Char) : Bool := isWordChar c || isPySpace c

/-- Python regex character class `[\w@\.]` of the affected-users pattern. -/
def isContactChar (c : Char) : Bool := isWordChar c || c == '@' || c == '.'

/-- Python regex `\d`. -/
def isDigitChar (c : Char) : Bool := c.isDigit

/-- Strip characters satisfying `p` from both ends (Python `str.strip(chars)`). -/
def stripBy (p : Char → Bool) (l : List Char) : List Char :=
  ((l.dropWhile p).reverse.dropWhile p).reverse

/-- Python `str.strip()` (no argument: whitespace). -/
def stripWS (l : List Char) : List Char := stripBy isPySpace l

/-- Python `line.strip("* ").strip()` used on bullet lines. -/
def bulletTrim (l : List Char) : List Char :=
  stripWS (stripBy (fun c => c == '*' || c == ' ') l)

/-- Core of Python `str.split("\n")`: the first piece and the remaining
pieces. -/
def splitNlCore : List Char → List Char × List (List Char)
  | [] => ([], [])
  | c :: cs =>
    let ht := splitNlCore cs
    if c == '\n' then ([], ht.1 :: ht.2) else (c :: ht.1, ht.2)

/-- Python `str.split("\n")`: `splitNl [] = [[]]`, always nonempty, pieces
contain no newline. -/
def splitNl (s : List Char) : List (List Char) :=
  (splitNlCore s).1 :: (splitNlCore s).2

/-- Python `"\n".join(ls)`. -/
def joinNl : List (List Char) → List Char
  | [] => []
  | [l] => l
  | l :: ls => l ++ '\n' :: joinNl ls

/-- Does the literal `pat` match at the start of `s`?  `ci` is Python's
`re.IGNORECASE`. -/
def matchesAt (ci : Bool) : List Char → List Char → Bool
  | [], _ => true
  | _ :: _, [] => false
  | p :: ps, c :: cs =>
    (if ci then p.toLower == c.toLower else p == c) && matchesAt ci ps cs

/-- The lazy middle of a pattern `A(.*?)B1|B2...`: starting at `s`, expand the
capture one character at a time, trying each terminator (in the pattern's
alternation order) before every expansion step; without `re.DOTALL`
(`dotall = false`) the capture cannot cross a newline.  Returns the capture
and the rest of the input after the terminator. -/
def lazyTo (ci dotall : Bool) (terms : List (List Char)) :
    List Char → Option (List Char × List Char)
  | [] =>
    match terms.find? (fun t => matchesAt ci t []) with
    | some t => some ([], ([] : List Char).drop t.length)
    | none => none
  | c :: cs =>
    match terms.find? (fun t => matchesAt ci t (c :: cs)) with
    | some t => some ([], (c :: cs).drop t.length)
    | none =>
      if !dotall && c == '\n' then none
      else
        match lazyTo ci dotall terms cs with
        | some (cap, r) => some (c :: cap, r)
        | none => none

/-- Python `re.search` for patterns of the shape `A(.*?)(?:B1|B2...)` with a
nonempty literal head `a`: leftmost position where the whole pattern matches,
shortest capture there. -/
def searchPat (ci dotall : Bool) (a : List Char) (terms : List (List Char)) :
    List Char → Option (List Char)
  | [] => none
  | c :: cs =>
    match (if matchesAt ci a (c :: cs)
           then lazyTo ci dotall terms ((c :: cs).drop a.length)
           else none) with
    | some (cap, _) => some cap
    | none => searchPat ci dotall a terms cs

/-- One step of Python `re.findall(r"```(.*?)```", content, re.DOTALL)`:
the first fenced block of `s`, as (capture, rest after the closing fence). -/
def scanFence : List Char → Option (List Char × List Char)
  | [] => none
  | c :: cs =>
    match (if matchesAt false ("```".toList) (c :: cs)
           then lazyTo false true [("```".toList)] ((c :: cs).drop 3)
           else none) with
    | some (cap, rest) => some (cap, rest)
    | none => scanFence cs

/-- Non-overlapping repetition of `scanFence`; a successful scan consumes at
least the opening fence, so `s.length + 1` fuel always suffices. -/
def findFencesAux : Nat → List Char → List (List Char)
  | 0, _ => []
  | n + 1, s =>
    match scanFence s with
    | none => []
    | some (cap, rest) => cap :: findFencesAux n rest

/-- Python `re.findall(r"```(.*?)```", content, re.DOTALL)`. -/
def findFences (s : List Char) : List (List Char) :=
  findFencesAux (s.length + 1) s

/-- The tail `" \([\w@\.]+\)"` of the affected-users pattern: a space, an
opening parenthesis, a nonempty greedy run of contact characters, and a
closing parenthesis.  Returns the rest after the match. -/
def userClose : List Char → Option (List Char)
  | ' ' :: '(' :: rest =>
    let cont := rest.takeWhile isContactChar
    if cont.isEmpty then none
    else
      match rest.drop cont.length with
      | ')' :: r => some r
      | _ => none
  | _ => none

/-- Greedy backtracking for the capture `([\w\s]+)`: `revTaken` is the
(reversed) candidate capture, longest first; each failure gives one character
back to `remaining`.  The capture must be nonempty. -/
def userBacktrack : List Char → List Char → Option (List Char × List Char)
  | [], _ => none
  | c :: revT, remaining =>
    match userClose remaining with
    | some r => some ((c :: revT).reverse, r)
    | none => userBacktrack revT (c :: remaining)

/-- Try the affected-users pattern with `rest` standing just after `"* "`. -/
def tryUserAt (rest : List Char) : Option (List Char × List Char) :=
  let run := rest.takeWhile isWordSpace
  userBacktrack run.reverse (rest.drop run.length)

/-- One step of `re.findall(r"\* ([\w\s]+) \([\w@\.]+\)", content)`: leftmost
match, as (capture, rest after the whole match). -/
def scanUser : List Char → Option (List Char × List Char)
  | [] => none
  | c :: cs =>
    match (if c == '*' then
             match cs with
             | ' ' :: rest => tryUserAt rest
             | _ => none
           else none) with
    | some res => some res
    | none => scanUser cs

/-- Non-overlapping repetition of `scanUser`: a match consumes at least the
`"* "` marker, so `s.length + 1` fuel always suffices. -/
def findUsersAux : Nat → List Char → List (List Char)
  | 0, _ => []
  | n + 1, s =>
    match scanUser s with
    | none => []
    | some (cap, rest) => cap :: findUsersAux n rest

/-- Python `re.findall(r"\* ([\w\s]+) \([\w@\.]+\)", content)`. -/
def findUsers (s : List Char) : List (List Char) :=
  findUsersAux (s.length + 1) s

/-- `\d{1,2}` (greedy) followed by the literal separator `sep`: returns the
digits and the rest after the separator.  The one-digit backtrack of the
regex engine can only succeed when the second character is the separator
itself, which the second arm implements. -/
def digits12Sep (sep : Char) : List Char → Option (List Char × List Char)
  | a :: b :: c :: r =>
    if isDigitChar a && isDigitChar b && c == sep then some ([a, b], r)
    else if isDigitChar a && b == sep then some ([a], c :: r)
    else none
  | a :: b :: r =>
    if isDigitChar a && b == sep then some ([a], r) else none
  | _ => none

/-- The start-time pattern
`(\d{1,2}:\d{2} [AP]M) on (\w+ \d{1,2}, \d{4})` tried with `s` standing just
after the literal `"around "`; returns Python's `f"{time}, {date}"`. -/
def tryTimeAt (s : List Char) : Option (List Char) := do
  let (hh, s1) ← digits12Sep ':' s
  match s1 with
  | m1 :: m2 :: ' ' :: ap :: 'M' :: rest =>
    if isDigitChar m1 && isDigitChar m2 && (ap == 'A' || ap == 'P') then
      if matchesAt false (" on ".toList) rest then
        let r := rest.drop 4
        let w := r.takeWhile isWordChar
        if w.isEmpty then none
        else
          match r.drop w.length with
          | ' ' :: r2 => do
            let (dd, r3) ← digits12Sep ',' r2
            match r3 with
            | ' ' :: y1 :: y2 :: y3 :: y4 :: _ =>
              if isDigitChar y1 && isDigitChar y2 && isDigitChar y3 &&
                 isDigitChar y4 then
                some ((hh ++ ':' :: m1 :: m2 :: ' ' :: ap :: ['M']) ++
                      (", ".toList) ++
                      (w ++ ' ' :: dd ++ (", ".toList) ++ [y1, y2, y3, y4]))
              else none
            | _ => none
          | _ => none
      else none
    else none
  | _ => none

/-- `re.search(r"around (\d{1,2}:\d{2} [AP]M) on (\w+ \d{1,2}, \d{4})", c)`,
already combined as Python's `f"{time}, {date}"`. -/
def searchStartTime : List Char → Option (List Char)
  | [] => none
  | c :: cs =>
    match (if matchesAt false ("around ".toList) (c :: cs)
           then tryTimeAt ((c :: cs).drop 7)
           else none) with
    | some res => some res
    | none => searchStartTime cs

/-- `main.extract_affected_systems`: regex
`The finance system \((.*?)\) is crashing`, and on success the optional
server suffix `Checked the FinSys server \((.*?)\)`. -/
def extract_affected_systems (content : List Char) : List Char :=
  match searchPat false false ("The finance system (".toList)
        [(") is crashing".toList)] content with
  | some system_name =>
    match searchPat false false ("Checked the FinSys server (".toList)
          [(")".toList)] content with
    | some server_name => system_name ++ (", ".toList) ++ server_name
    | none => system_name
  | none => "Not Found".toList

/-- `main.extract_error_messages`: fenced code blocks, joined with newlines
and stripped; `"None"` when there is no block. -/
def extract_error_messages (content : List Char) : List Char :=
  let ms := findFences content
  if ms.isEmpty then "None".toList else stripWS (joinNl ms)

/-- `main.extract_affected_users`: all matches of
`\* ([\w\s]+) \([\w@\.]+\)`, joined with newlines; `"None"` when none. -/
def extract_affected_users (content : List Char) : List Char :=
  let ms := findUsers content
  if ms.isEmpty then "None".toList else joinNl ms

/-- `main.extract_start_time`: the `around <time> on <date>` pattern,
formatted `f"{time}, {date}"`; `"Not Found"` when absent. -/
def extract_start_time (content : List Char) : List Char :=
  match searchStartTime content with
  | some td => td
  | none => "Not Found".toList

/-- The bullet post-processing shared by the two section extractors:
split the section into lines, apply `line.strip("* ").strip()`, and keep
the nonempty results. -/
def bulletLines (sec : List Char) : List (List Char) :=
  ((splitNl sec).map bulletTrim).filter (fun l => !l.isEmpty)

/-- `main.extract_suspected_causes`: regex
`Suspected Cause:(.*?)(?:Solution:|Affected Users:)` with
`re.DOTALL | re.IGNORECASE`, then bullet cleanup. -/
def extract_suspected_causes (content : List Char) : List Char :=
  match searchPat true true ("suspected cause:".toList)
        [("solution:".toList), ("affected users:".toList)] content with
  | some sec =>
    let causes := bulletLines (stripWS sec)
    if causes.isEmpty then "None".toList else joinNl causes
  | none => "None".toList

/-- `main.extract_resolution_steps`: regex
`Solution:(.*?)(?:Key Information:|Affected Users:)` with
`re.DOTALL | re.IGNORECASE`, then bullet cleanup. -/
def extract_resolution_steps (content : List Char) : List Char :=
  match searchPat true true ("solution:".toList)
        [("key information:".toList), ("affected users:".toList)] content with
  | some sec =>
    let steps := bulletLines (stripWS sec)
    if steps.isEmpty then "None".toList else joinNl steps
  | none => "None".toList

/-- The `key_info` assembly of `main.process_ticket` (Step 2): the six
fields, inserted in source order. -/
def extract_all (content : List Char) : List (List Char × List Char) :=
  [ ("affected_systems".toList, extract_affected_systems content),
    ("error_messages".toList, extract_error_messages content),
    ("affected_users".toList, extract_affected_users content),
    ("start_time".toList, extract_start_time content),
    ("suspected_causes".toList, extract_suspected_causes content),
    ("resolution_steps".toList, extract_resolution_steps content) ]

/-- The fixed key set of `extract_all`, in source order. -/
def fieldKeys : List (List Char) :=
  [ "affected_systems".toList, "error_messages".toList,
    "affected_users".toList, "start_time".toList,
    "suspected_causes".toList, "resolution_steps".toList ]

/-- The `NOT_FOUND` sentinel of the spec: either of the two spellings the
rule matchers return. -/
def isSentinel (v : List Char) : Prop :=
  v = "Not Found".toList ∨ v = "None".toList

/-- Case-insensitive prefix test (shorthand used by the substitutions). -/
def ciStarts (pat s : List Char) : Bool := matchesAt true pat s

/-- The optional trailing `[\.,]?` of the first substitution pattern
(greedy: the punctuation mark is consumed when present). -/
def optPunct : List Char → List Char
  | '.' :: r => r
  | ',' :: r => r
  | r => r

/-- The optional trailing `\.?` of a substitution pattern (greedy). -/
def optDot : List Char → List Char
  | '.' :: r => r
  | r => r

/-- One alternative of the first `re.sub` pattern: a case-insensitive
literal phrase with an optional trailing `[\.,]`.  Returns the rest of the
input after the match at the current position. -/
def subLitOpt (pat s : List Char) : Option (List Char) :=
  if ciStarts pat s then some (optPunct (s.drop pat.length)) else none

/-- Matcher of the first `re.sub` pattern of `post_process_llm_output`
(case-insensitive alternation of three boilerplate phrases, each with an
optional trailing `[\.,]`); alternatives are tried in the pattern's order. -/
def subPhrases (s : List Char) : Option (List Char) :=
  (subLitOpt ("please let me know if you need any further assistance".toList) s).orElse
    (fun _ => (subLitOpt ("i'm here to help".toList) s).orElse
      (fun _ => subLitOpt ("best regards, [your name] it support assistant".toList) s))

/-- Matcher of the second `re.sub` pattern:
`if you have any further questions or need any additional assistance.*`
(case-insensitive; the greedy `.*` without `re.DOTALL` runs to the end of
the line). -/
def subFurther (s : List Char) : Option (List Char) :=
  let pat := "if you have any further questions or need any additional assistance".toList
  if ciStarts pat s then
    some ((s.drop pat.length).dropWhile (fun c => c != '\n'))
  else none

/-- Last position before the end of the line at which `b` matches
case-insensitively (the greedy `.*` of an `A.*B` pattern ends at the last
occurrence of `B` on the line). -/
def lastOccCiAux (b : List Char) : List Char → Nat → Option Nat → Option Nat
  | [], _, best => best
  | c :: cs, i, best =>
    if c == '\n' then best
    else lastOccCiAux b cs (i + 1)
      (if ciStarts b (c :: cs) then some i else best)

/-- Matcher for the three substitution patterns of the shape
`A\.?.*B` (optionally `...B\.?`), case-insensitive, without `re.DOTALL`:
a leading `\.?` is subsumed by the greedy `.*` (no `B` starts with a dot),
the greedy `.*` selects the last occurrence of `B` on the line, and
`trailingDot` consumes a dot after `B` when the pattern ends in `\.?`. -/
def subSpan (a b : List Char) (trailingDot : Bool) (s : List Char) :
    Option (List Char) :=
  if ciStarts a s then
    let r := s.drop a.length
    match lastOccCiAux b r 0 none with
    | some p =>
      let r2 := r.drop (p + b.length)
      some (if trailingDot then optDot r2 else r2)
    | none => none
  else none

/-- Matcher of the third `re.sub` pattern (`however, it is assumed ...
i don't know\.?`). -/
def subAssumed (s : List Char) : Option (List Char) :=
  subSpan
    ("however, it is assumed that a ticket id exists in the actual glpi ticket".toList)
    ("i don't know".toList) true s

/-- Matcher of the fourth `re.sub` pattern (`no ticket id is provided in the
given content.*ticket id:  \(unknown\)`). -/
def subNoTicket (s : List Char) : Option (List Char) :=
  subSpan
    ("no ticket id is provided in the given content".toList)
    ("ticket id:  (unknown)".toList) false s

/-- Matcher of the fifth `re.sub` pattern (`note: the provided content does
not include a ticket id\.?.*i don't know`). -/
def subNote (s : List Char) : Option (List Char) :=
  subSpan
    ("note: the provided content does not include a ticket id".toList)
    ("i don't know".toList) false s

/-- Python `re.sub(pattern, "", s)` for a matcher `m` that can never match
the empty string: try `m` at each position, drop the matched span and
continue after it.  Every successful match consumes at least one character,
so `s.length + 1` fuel always suffices. -/
def subAllAux (m : List Char → Option (List Char)) : Nat → List Char → List Char
  | 0, s => s
  | _ + 1, [] => []
  | n + 1, c :: cs =>
    match m (c :: cs) with
    | some rest => subAllAux m n rest
    | none => c :: subAllAux m n cs

/-- Python `re.sub(pattern, "", s)` (see `subAllAux`). -/
def subAll (m : List Char → Option (List Char)) (s : List Char) : List Char :=
  subAllAux m (s.length + 1) s

/-- The five `re.sub` passes of `main.post_process_llm_output`, in source
order. -/
def boilerplateSub (s : List Char) : List Char :=
  subAll subNote (subAll subNoTicket (subAll subAssumed
    (subAll subFurther (subAll subPhrases s))))

/-- The line filter of `post_process_llm_output`: a stripped line is kept
iff it is a bullet with content beyond the marker, or a nonempty
non-bullet line. -/
def keepLine : List Char → Bool
  | [] => false
  | '*' :: rest => !rest.isEmpty
  | _ :: _ => true

/-- The line-processing half of `post_process_llm_output`: split on
newlines, strip each line, keep the lines `keepLine` accepts, re-join. -/
def cleanLines (s : List Char) : List Char :=
  joinNl (((splitNl s).map stripWS).filter keepLine)

/-- `main.post_process_llm_output`: the five boilerplate substitutions,
then the line cleanup. -/
def post_process_llm_output (s : List Char) : List Char :=
  cleanLines (boilerplateSub s)

/-- `GLPIConnector.kill_session`: with no session token it returns `True`
immediately, without any network call; with a token it issues the HTTP
request (outcome abstracted as `netOk`) and leaves `session_token` as it
was (the source never clears it).  Result: (return value, session token
afterwards). -/
def kill_session (netOk : Bool) : Option (List Char) → Bool × Option (List Char)
  | none => (true, none)
  | some tok => (netOk, some tok)

/-- The connector / backend calls `process_ticket` can make, in order. -/
inductive PipeCall
  | getTicket
  | ragCall
  | pdfCall
  | killSession
deriving DecidableEq

/-- Count of session-release calls in a trace. -/
def countKill : List PipeCall → Nat
  | [] => 0
  | PipeCall.killSession :: t => countKill t + 1
  | _ :: t => countKill t

/-- How one run of `main.process_ticket` ends. -/
inductive RunOutcome
  | completed (summary : List Char) (key_info : List (List Char × List Char))
  | ticketNotFound
  | failed
deriving DecidableEq

/-- The external world of one `process_ticket` run: the fetched ticket
(`none` models a falsy `get_ticket` result), and the outcomes of the two
network-bound stages that can raise (`rag_completion`, and
`PDFGenerator` construction / `generate_report`). -/
structure PipeEnv where
  fetch : Option (List Char)
  ragResult : Except (List Char) (List Char)
  pdfResult : Except (List Char) Unit

/-- `main.process_ticket`: `try` body (fetch, summarize + clean, rule-based
extraction, PDF), `except` catching any mid-run exception, and the
`finally` that always calls `kill_session` once.  Returns the run outcome
and the trace of external calls. -/
def process_ticket (env : PipeEnv) : RunOutcome × List PipeCall :=
  let body : RunOutcome × List PipeCall :=
    match env.fetch with
    | none => (RunOutcome.ticketNotFound, [PipeCall.getTicket])
    | some content =>
      match env.ragResult with
      | Except.error _ =>
        (RunOutcome.failed, [PipeCall.getTicket, PipeCall.ragCall])
      | Except.ok raw =>
        match env.pdfResult with
        | Except.error _ =>
          (RunOutcome.failed,
           [PipeCall.getTicket, PipeCall.ragCall, PipeCall.pdfCall])
        | Except.ok _ =>
          (RunOutcome.completed (post_process_llm_output raw) (extract_all content),
           [PipeCall.getTicket, PipeCall.ragCall, PipeCall.pdfCall])
  (body.1, body.2 ++ [PipeCall.killSession])

/-- One webhook event object as `glpi_webhook` reads it: `event` and
`itemtype` via `.get` (absent keys give `None`), and `items_id` after
Python's `int(...)` (`none` models a missing or unconvertible value, where
`int` raises). -/
structure WebhookEvent where
  event : Option (List Char)
  itemtype : Option (List Char)
  items_id_int : Option Int
deriving DecidableEq

/-- The dispatch condition of `glpi_webhook`:
`event.get("event") == "add" and event.get("itemtype") == "Ticket"`. -/
def isTicketAdd (e : WebhookEvent) : Bool :=
  e.event == some ("add".toList) && e.itemtype == some ("Ticket".toList)

/-- The three response shapes of `glpi_webhook`. -/
inductive WebhookResp
  | initiated (id : Int)
  | noRelevant
  | errorResp
deriving DecidableEq

/-- `main.glpi_webhook` over a parsed payload: scan the events in order;
the first `add`/`Ticket` event dispatches `process_ticket` and returns; a
failing `int()` raises into the handler's `except` (error response, no
dispatch); otherwise the no-action response.  Result: (response, ids a
background pipeline run was dispatched for). -/
def glpi_webhook : List WebhookEvent → WebhookResp × List Int
  | [] => (WebhookResp.noRelevant, [])
  | e :: es =>
    if isTicketAdd e then
      match e.items_id_int with
      | some i => (WebhookResp.initiated i, [i])
      | none => (WebhookResp.errorResp, [])
    else glpi_webhook es

/-- A GLPI document as `LLMService.process_documents_to_chunks` reads it. -/
structure GlpiDoc where
  content : Option (List Char)
  id : Option Int
deriving DecidableEq

/-- A chunk produced by `process_documents_to_chunks`. -/
structure Chunk where
  text : List Char
  source_id : Option Int
  source_type : List Char
deriving DecidableEq

/-- The external collaborators of `LLMService`: the structural HTML chunker
(`unstructured.partition_html`) and the retrieval chain
(`Chroma.from_texts` + `RetrievalQA`), the latter abstracted as a function
from the indexed texts and the query to the backend's answer. -/
structure LlmEnv where
  partitionHtml : List Char → List (List Char)
  answer : List (List Char) → List Char → List Char

/-- The steps `rag_completion` runs, in order. -/
inductive LlmCall
  | createVectorstore
  | queryLlm
deriving DecidableEq

/-- `LLMService.process_documents_to_chunks`: for each document with a
`content` key, the structural chunks of its content, tagged with the
source id and the literal source type. -/
def process_documents_to_chunks (env : LlmEnv) (docs : List GlpiDoc) :
    List Chunk :=
  (docs.map (fun d =>
    match d.content with
    | some c =>
      (env.partitionHtml c).map
        (fun t => Chunk.mk t d.id ("glpi_ticket".toList))
    | none => [])).flatten

/-- `LLMService.rag_completion`: chunk the documents, build the vector
store from the chunk texts, query the retrieval chain — unconditionally,
with no branch on the number of chunks.  Returns the backend's answer and
the trace of steps performed. -/
def rag_completion (env : LlmEnv) (docs : List GlpiDoc) (query : List Char) :
    List Char × List LlmCall :=
  let chunks := process_documents_to_chunks env docs
  (env.answer (chunks.map Chunk.text) query,
   [LlmCall.createVectorstore, LlmCall.queryLlm])

/-- The Key Information filter of `PDFGenerator.generate_report`: an entry
is rendered iff its value is truthy (nonempty) and `value.lower()` is not
`'none'`. -/
def keyInfoEntries (key_info : List (List Char × List Char)) :
    List (List Char × List Char) :=
  key_info.filter (fun kv => !kv.2.isEmpty && pyLower kv.2 != "none".toList)

theorem mem_dropWhile_mem (p : Char → Bool) :
    ∀ (l : List Char) (x : Char), x ∈ l.dropWhile p → x ∈ l := by
  intro l x
  induction l with
  | nil => simp [List.dropWhile]
  | cons c cs ih =>
    rw [List.dropWhile_cons]
    split
    · intro h; exact List.mem_cons_of_mem _ (ih h)
    · exact id

theorem dropWhile_head_not (p : Char → Bool) :
    ∀ (l : List Char) (c : Char) (t : List Char),
      l.dropWhile p = c :: t → p c = false := by
  intro l
  induction l with
  | nil => intro c t h; simp [List.dropWhile] at h
  | cons a l ih =>
    intro c t h
    rw [List.dropWhile_cons] at h
    by_cases hp : p a
    · rw [if_pos hp] at h; exact ih c t h
    · rw [if_neg hp] at h
      injection h with h1 h2
      subst h1
      exact eq_false_of_ne_true hp

theorem dropWhile_of_head_not (p : Char → Bool) (c : Char) (t : List Char)
    (h : p c = false) : (c :: t).dropWhile p = c :: t := by
  simp [List.dropWhile_cons, h]

theorem dropWhile_idem (p : Char → Bool) (l : List Char) :
    (l.dropWhile p).dropWhile p = l.dropWhile p := by
  cases h : l.dropWhile p with
  | nil => simp
  | cons c t => exact dropWhile_of_head_not p c t (dropWhile_head_not p l c t h)

theorem stripBy_dropWhile (p : Char → Bool) (l : List Char) :
    (stripBy p l).dropWhile p = stripBy p l := by
  cases h : stripBy p l with
  | nil => simp
  | cons c t =>
    have hA : l.dropWhile p =
        stripBy p l ++ ((l.dropWhile p).reverse.takeWhile p).reverse := by
      unfold stripBy
      conv_lhs => rw [← List.reverse_reverse (l.dropWhile p),
        ← List.takeWhile_append_dropWhile p (l.dropWhile p).reverse]
      rw [List.reverse_append]
    rw [h, List.cons_append] at hA
    exact dropWhile_of_head_not p c t (dropWhile_head_not p l c _ hA)

theorem stripBy_idem (p : Char → Bool) (l : List Char) :
    stripBy p (stripBy p l) = stripBy p l := by
  show (((stripBy p l).dropWhile p).reverse.dropWhile p).reverse = stripBy p l
  rw [stripBy_dropWhile]
  unfold stripBy
  rw [List.reverse_reverse, dropWhile_idem]

theorem stripWS_idem (l : List Char) : stripWS (stripWS l) = stripWS l :=
  stripBy_idem isPySpace l

theorem mem_stripBy_mem (p : Char → Bool) (l : List Char) (x : Char)
    (h : x ∈ stripBy p l) : x ∈ l := by
  unfold stripBy at h
  rw [List.mem_reverse] at h
  have h2 := mem_dropWhile_mem p _ _ h
  rw [List.mem_reverse] at h2
  exact mem_dropWhile_mem p _ _ h2

theorem splitNlCore_no_nl (s : List Char) :
    '\n' ∉ (splitNlCore s).1 ∧ ∀ l ∈ (splitNlCore s).2, '\n' ∉ l := by
  induction s with
  | nil => simp [splitNlCore]
  | cons c cs ih =>
    simp only [splitNlCore]
    by_cases hc : c == '\n'
    · simp only [hc, if_pos]
      refine ⟨by simp, ?_⟩
      intro l hl
      rcases List.mem_cons.mp hl with rfl | hl
      · exact ih.1
      · exact ih.2 l hl
    · simp only [hc, if_neg, Bool.false_eq_true, not_false_iff]
      refine ⟨?_, ih.2⟩
      intro hmem
      rcases List.mem_cons.mp hmem with h | h
      · exact absurd (beq_iff_eq.mpr h.symm) (by simpa using hc)
      · exact ih.1 h

theorem splitNlCore_append_no_nl (l r : List Char) (hl : '\n' ∉ l) :
    splitNlCore (l ++ r) = (l ++ (splitNlCore r).1, (splitNlCore r).2) := by
  induction l with
  | nil => simp
  | cons c cs ih =>
    have hc : (c == '\n') = false := by
      refine beq_eq_false_iff_ne.mpr ?_
      intro h; exact hl (h ▸ List.mem_cons_self c cs)
    simp only [List.cons_append, splitNlCore]
    simp only [List.append_eq]
    rw [ih (fun h => hl (List.mem_cons_of_mem _ h))]
    simp [hc]

theorem splitNl_joinNl :
    ∀ ls : List (List Char), ls ≠ [] → (∀ l ∈ ls, '\n' ∉ l) →
      splitNl (joinNl ls) = ls := by
  intro ls
  induction ls with
  | nil => intro h; exact absurd rfl h
  | cons l ls ih =>
    intro _ hnl
    cases ls with
    | nil =>
      have h1 := splitNlCore_append_no_nl l [] (hnl l (List.mem_cons_self _ _))
      simp only [List.append_nil, splitNlCore] at h1
      simp [joinNl, splitNl, h1]
    | cons l2 ls2 =>
      have hrec := ih (by simp) (fun x hx => hnl x (List.mem_cons_of_mem _ hx))
      show splitNl (l ++ '\n' :: joinNl (l2 :: ls2)) = l :: l2 :: ls2
      unfold splitNl
      rw [splitNlCore_append_no_nl l _ (hnl l (List.mem_cons_self _ _))]
      simp only [splitNlCore, beq_self_eq_true, if_pos, List.append_nil]
      unfold splitNl at hrec
      rw [List.cons.injEq]
      exact ⟨by simp, hrec⟩

theorem cleanLines_idem (s : List Char) :
    cleanLines (cleanLines s) = cleanLines s := by
  unfold cleanLines
  cases hK : ((splitNl s).map stripWS).filter keepLine with
  | nil => rfl
  | cons k ks =>
    have hmemK : ∀ x ∈ k :: ks, keepLine x = true := by
      rw [← hK]; intro x hx; exact List.of_mem_filter hx
    have hmemL : ∀ x ∈ k :: ks, ∃ piece, x = stripWS piece ∧ '\n' ∉ piece := by
      rw [← hK]; intro x hx
      have hxL := List.mem_of_mem_filter hx
      rw [List.mem_map] at hxL
      obtain ⟨piece, hp, rfl⟩ := hxL
      refine ⟨piece, rfl, ?_⟩
      have hno := splitNlCore_no_nl s
      rcases List.mem_cons.mp hp with rfl | hp2
      · exact hno.1
      · exact hno.2 piece hp2
    have hnl : ∀ x ∈ k :: ks, '\n' ∉ x := by
      intro x hx hc
      obtain ⟨piece, rfl, hpn⟩ := hmemL x hx
      exact hpn (mem_stripBy_mem _ _ _ hc)
    have hstrip : ∀ x ∈ k :: ks, stripWS x = x := by
      intro x hx
      obtain ⟨piece, rfl, -⟩ := hmemL x hx
      exact stripWS_idem piece
    rw [splitNl_joinNl (k :: ks) (by simp) hnl]
    have hmap : (k :: ks).map stripWS = k :: ks := by
      rw [show (k :: ks).map stripWS = (k :: ks).map id from
            List.map_congr_left hstrip, List.map_id]
    rw [hmap, List.filter_eq_self.mpr hmemK]

/-- Claim C4 (amended): the cleaning pass is idempotent on every input
whose cleaned output the boilerplate-substitution pass leaves unchanged;
in general a substitution can splice surrounding text into a fresh
boilerplate phrase, so unconditional idempotence fails. -/
theorem C4_clean_idem_conditional :
    ∀ x : List Char,
      boilerplateSub (post_process_llm_output x) = post_process_llm_output x →
      post_process_llm_output (post_process_llm_output x) =
        post_process_llm_output x := by
  intro x h
  show cleanLines (boilerplateSub (post_process_llm_output x)) =
    post_process_llm_output x
  rw [h]
  show cleanLines (cleanLines (boilerplateSub x)) = cleanLines (boilerplateSub x)
  exact cleanLines_idem _

/-- Witness for `C4_clean_idem_conditional` at a concrete input. -/
theorem C4_clean_idem_conditional_witness :
    post_process_llm_output (post_process_llm_output ("hello\n\nworld".toList)) =
      post_process_llm_output ("hello\n\nworld".toList) :=
  C4_clean_idem_conditional ("hello\n\nworld".toList) (by decide)

/-- Counterexample to claim C4 as stated: removing one boilerplate phrase
splices the surrounding text into a new occurrence, which only the second
pass removes, so `clean (clean x) ≠ clean x` at this input. -/
theorem C4_counterexample :
    post_process_llm_output
        (post_process_llm_output ("i'm hi'm here to help.ere to help.".toList)) ≠
      post_process_llm_output ("i'm hi'm here to help.ere to help.".toList) := by
  decide

/-- Claim C1: every `process_ticket` run — successful, `TicketNotFound`,
or failed mid-run — calls the session release exactly once (the `finally`
block), and `kill_session` with no active session is safe and returns
`True` without touching the network. -/
theorem C1_session_release_once :
    ∀ (env : PipeEnv) (netOk : Bool),
      countKill (process_ticket env).2 = 1 ∧
      kill_session netOk none = (true, none) := by
  intro env netOk
  refine ⟨?_, rfl⟩
  obtain ⟨f, r, p⟩ := env
  cases f <;> cases r <;> cases p <;> rfl

/-- Claim C3 (amended): on the scenario content, `extract_suspected_causes`
returns the two cleaned cause bullets, but `extract_resolution_steps`
returns `"None"`: its regex requires a closing section marker
(`Key Information:` or `Affected Users:`) after `Solution:`, which this
content lacks. -/
theorem C3_scenario_amended :
    extract_suspected_causes
        (("Suspected Cause:\n* Disk full\n* Stale lock\nSolution:\n* Cleared cache").toList) =
      ("Disk full\nStale lock").toList ∧
    extract_resolution_steps
        (("Suspected Cause:\n* Disk full\n* Stale lock\nSolution:\n* Cleared cache").toList) =
      ("None").toList := by
  constructor <;> decide

/-- Counterexample to claim C3 as stated: the solution parse of the
scenario content does not return `"Cleared cache"`. -/
theorem C3_counterexample :
    extract_resolution_steps
        (("Suspected Cause:\n* Disk full\n* Stale lock\nSolution:\n* Cleared cache").toList) ≠
      ("Cleared cache").toList := by
  decide

/-- Claim C5 (amended): the text cleaner has no deduplication pass — two
identical bullet lines are both retained, in order. -/
theorem C5_no_dedup :
    post_process_llm_output (("* Disk full\n* Disk full").toList) =
      ("* Disk full\n* Disk full").toList := by
  decide

/-- Counterexample to claim C5 as stated: the cleaning pass applied to two
case-insensitively identical bullet lines does not retain exactly one. -/
theorem C5_counterexample :
    post_process_llm_output (("* Disk full\n* Disk full").toList) ≠
      ("* Disk full").toList := by
  decide

/-- An environment whose chunker returns no chunks and whose backend
answers with the empty string (used by the C6 theorems). -/
def llmEnvZero : LlmEnv :=
  LlmEnv.mk (fun _ => []) (fun _ _ => [])

/-- A document list with one empty-content document (chunking yields
zero chunks under `llmEnvZero`). -/
def docsEmptyContent : List GlpiDoc :=
  [GlpiDoc.mk (some []) none]

/-- Claim C6 (amended): when chunking produces zero chunks,
`rag_completion` does not skip the retrieval step — it still builds the
vector store (from the empty text list) and issues the query through the
retrieval chain, returning whatever the backend produces; there is no
special-case branch. -/
theorem C6_zero_chunks_no_skip :
    ∀ (env : LlmEnv) (docs : List GlpiDoc) (q : List Char),
      process_documents_to_chunks env docs = [] →
      rag_completion env docs q =
        (env.answer [] q, [LlmCall.createVectorstore, LlmCall.queryLlm]) := by
  intro env docs q h
  unfold rag_completion
  rw [h]
  rfl

/-- Witness for `C6_zero_chunks_no_skip` at a concrete environment. -/
theorem C6_zero_chunks_no_skip_witness :
    rag_completion llmEnvZero docsEmptyContent (("summarize").toList) =
      (llmEnvZero.answer [] (("summarize").toList),
       [LlmCall.createVectorstore, LlmCall.queryLlm]) :=
  C6_zero_chunks_no_skip llmEnvZero docsEmptyContent (("summarize").toList) rfl

/-- Counterexample to claim C6 as stated: with zero chunks the run still
performs the vector-store construction and the retrieval query — the
retrieval step is not skipped. -/
theorem C6_counterexample :
    process_documents_to_chunks llmEnvZero docsEmptyContent = [] ∧
    (rag_completion llmEnvZero docsEmptyContent (("summarize").toList)).2 =
      [LlmCall.createVectorstore, LlmCall.queryLlm] :=
  ⟨rfl, rfl⟩

/-- Claim C8: an event dispatches a pipeline run only when its `event`
field is `"add"` and its `itemtype` field is `"Ticket"`; a payload with no
such event yields the no-action acknowledgment and dispatches nothing. -/
theorem C8_webhook_dispatch :
    ∀ evs : List WebhookEvent,
      ((∀ e ∈ evs, isTicketAdd e = false) →
        glpi_webhook evs = (WebhookResp.noRelevant, [])) ∧
      (∀ i ∈ (glpi_webhook evs).2,
        ∃ e ∈ evs, isTicketAdd e = true ∧ e.items_id_int = some i) := by
  intro evs
  induction evs with
  | nil =>
    refine ⟨fun _ => rfl, ?_⟩
    intro i hi
    simp [glpi_webhook] at hi
  | cons e es ih =>
    constructor
    · intro h
      have he := h e (List.mem_cons_self _ _)
      show (if isTicketAdd e then _ else glpi_webhook es) = _
      rw [he]
      simp only [Bool.false_eq_true, if_false]
      exact ih.1 (fun x hx => h x (List.mem_cons_of_mem _ hx))
    · intro i hi
      by_cases hta : isTicketAdd e
      · cases hid : e.items_id_int with
        | some j =>
          simp only [glpi_webhook, hta, if_true, hid] at hi
          rcases List.mem_singleton.mp hi with rfl
          exact ⟨e, List.mem_cons_self _ _, hta, hid⟩
        | none =>
          simp only [glpi_webhook, hta, if_true, hid] at hi
          simp at hi
      · have hes : glpi_webhook (e :: es) = glpi_webhook es := by
          show (if isTicketAdd e then _ else glpi_webhook es) = _
          simp [hta]
        rw [hes] at hi
        obtain ⟨e2, he2, h1, h2⟩ := ih.2 i hi
        exact ⟨e2, List.mem_cons_of_mem _ he2, h1, h2⟩

/-- Witness for `C8_webhook_dispatch`: a payload whose only event is an
update is acknowledged with the no-action response. -/
theorem C8_webhook_dispatch_witness :
    glpi_webhook
        [WebhookEvent.mk (some (("update").toList)) (some (("Ticket").toList)) (some 7)] =
      (WebhookResp.noRelevant, []) :=
  (C8_webhook_dispatch _).1 (by decide)

/-- Claim C10: the report's Key Information section omits every entry
whose value lowercases to `"none"`, and keeps entries whose value is the
other sentinel spelling `"Not Found"`. -/
theorem C10_report_sentinel_rendering :
    ∀ (ki : List (List Char × List Char)) (k v : List Char),
      (k, v) ∈ ki →
      (pyLower v = ("none").toList → (k, v) ∉ keyInfoEntries ki) ∧
      (v = ("Not Found").toList → (k, v) ∈ keyInfoEntries ki) := by
  intro ki k v hmem
  constructor
  · intro hlow hinf
    have hp := List.of_mem_filter hinf
    simp only [hlow] at hp
    simp at hp
  · intro hv
    refine List.mem_filter.mpr ⟨hmem, ?_⟩
    subst hv
    show (!(("Not Found").toList).isEmpty &&
      pyLower (("Not Found").toList) != ("none").toList) = true
    decide

/-- Witness for `C10_report_sentinel_rendering` at a concrete key-info
mapping: the `"Not Found"` entry is rendered, the `"None"` entry is not. -/
theorem C10_report_sentinel_rendering_witness :
    (("start_time").toList, ("Not Found").toList) ∈
      keyInfoEntries
        [(("error_messages").toList, ("None").toList),
         (("start_time").toList, ("Not Found").toList)] ∧
    (("error_messages").toList, ("None").toList) ∉
      keyInfoEntries
        [(("error_messages").toList, ("None").toList),
         (("start_time").toList, ("Not Found").toList)] :=
  ⟨(C10_report_sentinel_rendering _ _ _ (by decide)).2 rfl,
   (C10_report_sentinel_rendering _ _ _ (by decide)).1 (by decide)⟩

/-- Claim C2: for content on which none of the six rule matchers finds a
match, the `key_info` assembly holds exactly the six fixed keys, in source
order, each bound to a `NOT_FOUND` sentinel spelling — no key missing,
added, or removed. -/
theorem C2_sentinel_completeness :
    ∀ content : List Char,
      searchPat false false (("The finance system (").toList)
        [((") is crashing").toList)] content = none →
      findFences content = [] →
      findUsers content = [] →
      searchStartTime content = none →
      searchPat true true (("suspected cause:").toList)
        [(("solution:").toList), (("affected users:").toList)] content = none →
      searchPat true true (("solution:").toList)
        [(("key information:").toList), (("affected users:").toList)] content = none →
      (extract_all content).map Prod.fst = fieldKeys ∧
      ∀ kv ∈ extract_all content, isSentinel kv.2 := by
  intro c h1 h2 h3 h4 h5 h6
  refine ⟨rfl, ?_⟩
  intro kv hkv
  have e1 : extract_affected_systems c = ("Not Found").toList := by
    unfold extract_affected_systems; rw [h1]
  have e2 : extract_error_messages c = ("None").toList := by
    unfold extract_error_messages; rw [h2]; rfl
  have e3 : extract_affected_users c = ("None").toList := by
    unfold extract_affected_users; rw [h3]; rfl
  have e4 : extract_start_time c = ("Not Found").toList := by
    unfold extract_start_time; rw [h4]
  have e5 : extract_suspected_causes c = ("None").toList := by
    unfold extract_suspected_causes; rw [h5]
  have e6 : extract_resolution_steps c = ("None").toList := by
    unfold extract_resolution_steps; rw [h6]
  simp only [extract_all, List.mem_cons, List.not_mem_nil, or_false] at hkv
  rcases hkv with h | h | h | h | h | h <;> subst h <;>
    simp only [e1, e2, e3, e4, e5, e6] <;>
    first
      | exact Or.inl rfl
      | exact Or.inr rfl

/-- Witness for `C2_sentinel_completeness` at content with no recognizable
pattern. -/
theorem C2_sentinel_completeness_witness :
    (extract_all (("hello world").toList)).map Prod.fst = fieldKeys ∧
    ∀ kv ∈ extract_all (("hello world").toList), isSentinel kv.2 :=
  C2_sentinel_completeness (("hello world").toList) (by decide) (by decide)
    (by decide) (by decide) (by decide) (by decide)

theorem matchesAt_self (pat s : List Char) :
    matchesAt false pat (pat ++ s) = true := by
  induction pat with
  | nil => rfl
  | cons p ps ih => simp [matchesAt, ih]

theorem matchesAt_tick_false (c : Char) (hc : c ≠ '`') (cs : List Char) :
    matchesAt false (("```").toList) (c :: cs) = false := by
  show matchesAt false ('`' :: '`' :: ['`']) (c :: cs) = false
  simp [matchesAt, beq_eq_false_iff_ne.mpr (Ne.symm hc)]

theorem scanFence_append (p t : List Char) (hp : ∀ c ∈ p, c ≠ '`') :
    scanFence (p ++ t) = scanFence t := by
  induction p with
  | nil => rfl
  | cons c cs ih =>
    have hc := matchesAt_tick_false c (hp c (List.mem_cons_self _ _)) (cs ++ t)
    rw [List.cons_append]
    simp only [scanFence, hc, Bool.false_eq_true, if_false]
    exact ih (fun x hx => hp x (List.mem_cons_of_mem _ hx))

theorem scanFence_eq_none (s : List Char) (hs : ∀ c ∈ s, c ≠ '`') :
    scanFence s = none := by
  induction s with
  | nil => rfl
  | cons c cs ih =>
    have hc := matchesAt_tick_false c (hs c (List.mem_cons_self _ _)) cs
    simp only [scanFence, hc, Bool.false_eq_true, if_false]
    exact ih (fun x hx => hs x (List.mem_cons_of_mem _ hx))

theorem lazyTo_fence (b s : List Char) (hb : ∀ c ∈ b, c ≠ '`') :
    lazyTo false true [("```").toList] (b ++ (("```").toList ++ s)) =
      some (b, s) := by
  induction b with
  | nil =>
    show lazyTo false true [("```").toList] (("```").toList ++ s) = some ([], s)
    have hm := matchesAt_self (("```").toList) s
    show lazyTo false true [("```").toList] ('`' :: '`' :: '`' :: s) = some ([], s)
    simp only [lazyTo, List.find?]
    rw [show matchesAt false (("```").toList) ('`' :: '`' :: '`' :: s) = true from hm]
    rfl
  | cons c cs ih =>
    have hc := matchesAt_tick_false c (hb c (List.mem_cons_self _ _))
      (cs ++ (("```").toList ++ s))
    rw [List.cons_append]
    simp only [lazyTo, List.find?, hc]
    rw [ih (fun x hx => hb x (List.mem_cons_of_mem _ hx))]
    simp

theorem findFencesAux_of_scan_none (s : List Char) (h : scanFence s = none) :
    ∀ n, findFencesAux n s = [] := by
  intro n
  cases n with
  | zero => rfl
  | succ m => simp [findFencesAux, h]

theorem findFences_of_single (t b s : List Char)
    (h1 : scanFence t = some (b, s)) (h2 : scanFence s = none) :
    findFences t = [b] := by
  unfold findFences
  simp [findFencesAux, h1, findFencesAux_of_scan_none s h2]

/-- Claim C7 (amended): for any ticket text in which the backtick fences
delimit exactly the single block `ERR-500 disk full` (no backtick appears
outside it), `extract_error_messages` returns exactly that block,
independently of any completion backend. -/
theorem C7_error_messages_rule :
    ∀ p s : List Char, (∀ c ∈ p, c ≠ '`') → (∀ c ∈ s, c ≠ '`') →
      extract_error_messages
          (p ++ (("```ERR-500 disk full```").toList ++ s)) =
        ("ERR-500 disk full").toList := by
  intro p s hp hs
  have hb : ∀ c ∈ ("ERR-500 disk full").toList, c ≠ '`' := by decide
  have hsplit : (("```ERR-500 disk full```").toList : List Char) ++ s =
      ("```").toList ++ (("ERR-500 disk full").toList ++ (("```").toList ++ s)) := by
    simp [← List.append_assoc]
  have h1 : scanFence (p ++ (("```ERR-500 disk full```").toList ++ s)) =
      some (("ERR-500 disk full").toList, s) := by
    rw [scanFence_append p _ hp, hsplit]
    show scanFence ('`' :: '`' :: '`' ::
      (("ERR-500 disk full").toList ++ (("```").toList ++ s))) = _
    have hm := matchesAt_self (("```").toList)
      (("ERR-500 disk full").toList ++ (("```").toList ++ s))
    simp only [scanFence]
    rw [show matchesAt false (("```").toList) ('`' :: '`' :: '`' ::
      (("ERR-500 disk full").toList ++ (("```").toList ++ s))) = true from hm]
    simp only [if_true, List.drop]
    rw [lazyTo_fence _ s hb]
  unfold extract_error_messages
  rw [findFences_of_single _ _ _ h1 (scanFence_eq_none s hs)]
  decide

/-- Witness for `C7_error_messages_rule` at concrete surrounding text. -/
theorem C7_error_messages_rule_witness :
    extract_error_messages
        ((("Error: ").toList) ++ (("```ERR-500 disk full```").toList ++ ((" reported").toList))) =
      ("ERR-500 disk full").toList :=
  C7_error_messages_rule (("Error: ").toList) ((" reported").toList)
    (by decide) (by decide)

/-- Counterexample to claim C7 as stated: a text that contains the fenced
block `ERR-500 disk full` but also an earlier fence yields the join of
both captures, not the single block. -/
theorem C7_counterexample :
    (("```x```").toList) ++ (("```ERR-500 disk full```").toList) =
      ("```x``````ERR-500 disk full```").toList ∧
    extract_error_messages (("```x``````ERR-500 disk full```").toList) ≠
      ("ERR-500 disk full").toList := by
  constructor <;> decide

theorem matchesAt_false_prefix :
    ∀ pat s : List Char, matchesAt false pat s = true → ∃ r, s = pat ++ r := by
  intro pat
  induction pat with
  | nil => intro s _; exact ⟨s, rfl⟩
  | cons p ps ih =>
    intro s h
    cases s with
    | nil => simp [matchesAt] at h
    | cons c cs =>
      simp only [matchesAt, Bool.ite_eq_true_distrib, if_false,
        Bool.and_eq_true] at h
      obtain ⟨h1, h2⟩ := h
      obtain ⟨r, rfl⟩ := ih cs h2
      have : p = c := by
        by_contra hne
        rw [beq_eq_false_iff_ne.mpr hne] at h1
        exact Bool.false_ne_true h1
      exact ⟨r, by rw [this, List.cons_append]⟩

theorem lazyTo_sound :
    ∀ (terms : List (List Char)) (s cap r : List Char),
      lazyTo false false terms s = some (cap, r) →
      ∃ t ∈ terms, s = cap ++ (t ++ r) ∧ '\n' ∉ cap := by
  intro terms s
  induction s with
  | nil =>
    intro cap r h
    simp only [lazyTo] at h
    cases hf : terms.find? (fun t => matchesAt false t []) with
    | none => rw [hf] at h; exact absurd h (by simp)
    | some t =>
      rw [hf] at h
      injection h with h2
      obtain ⟨hcap, hr⟩ := Prod.mk.injEq .. ▸ h2
      obtain ⟨rt, hrt⟩ := matchesAt_false_prefix t []
        (by simpa using List.find?_some hf)
      obtain ⟨ht0, hrt0⟩ := List.append_eq_nil.mp hrt.symm
      refine ⟨t, List.mem_of_find?_eq_some hf, ?_, by rw [← hcap]; simp⟩
      rw [← hcap, ht0, ← hr]
      simp
  | cons c cs ih =>
    intro cap r h
    simp only [lazyTo] at h
    cases hf : terms.find? (fun t => matchesAt false t (c :: cs)) with
    | some t =>
      rw [hf] at h
      injection h with h2
      obtain ⟨hcap, hr⟩ := Prod.mk.injEq .. ▸ h2
      obtain ⟨rt, hrt⟩ := matchesAt_false_prefix t (c :: cs)
        (by simpa using List.find?_some hf)
      refine ⟨t, List.mem_of_find?_eq_some hf, ?_, by rw [← hcap]; simp⟩
      rw [← hcap, List.nil_append, hrt, ← hr, hrt, List.drop_left]
    | none =>
      rw [hf] at h
      by_cases hc : c == '\n'
      · rw [if_pos (by simp [hc])] at h
        exact absurd h (by simp)
      · rw [if_neg (by simp [hc])] at h
        cases hl : lazyTo false false terms cs with
        | none => rw [hl] at h; exact absurd h (by simp)
        | some pr =>
          obtain ⟨cap2, r2⟩ := pr
          rw [hl] at h
          injection h with h2
          obtain ⟨hcap, hr⟩ := Prod.mk.injEq .. ▸ h2
          obtain ⟨t, htm, heq, hnl⟩ := ih cap2 r2 hl
          refine ⟨t, htm, ?_, ?_⟩
          · rw [← hcap, ← hr, List.cons_append, heq]
          · rw [← hcap]
            intro hmem
            rcases List.mem_cons.mp hmem with h' | h'
            · exact hc (beq_iff_eq.mpr h'.symm)
            · exact hnl h'

theorem searchPat_sound :
    ∀ (a : List Char) (terms : List (List Char)) (s cap : List Char),
      searchPat false false a terms s = some cap →
      ∃ u t r, t ∈ terms ∧ s = u ++ (a ++ (cap ++ (t ++ r))) ∧ '\n' ∉ cap := by
  intro a terms s
  induction s with
  | nil => intro cap h; exact absurd h (by simp [searchPat])
  | cons c cs ih =>
    intro cap h
    simp only [searchPat] at h
    cases hm : matchesAt false a (c :: cs) with
    | true =>
      rw [hm, if_pos rfl] at h
      cases hl : lazyTo false false terms ((c :: cs).drop a.length) with
      | some pr =>
        obtain ⟨cap2, r2⟩ := pr
        rw [hl] at h
        injection h with h2
        subst h2
        obtain ⟨rt, hrt⟩ := matchesAt_false_prefix a (c :: cs) hm
        rw [hrt, List.drop_left] at hl
        obtain ⟨t, htm, heq, hnl⟩ := lazyTo_sound terms rt cap2 r2 hl
        exact ⟨[], t, r2, htm, by rw [List.nil_append, hrt, heq], hnl⟩
      | none =>
        rw [hl] at h
        obtain ⟨u, t, r, htm, heq, hnl⟩ := ih cap h
        exact ⟨c :: u, t, r, htm, by rw [List.cons_append, heq], hnl⟩
    | false =>
      rw [hm] at h
      rw [if_neg (by simp)] at h
      obtain ⟨u, t, r, htm, heq, hnl⟩ := ih cap h
      exact ⟨c :: u, t, r, htm, by rw [List.cons_append, heq], hnl⟩

/-- Claim C9: the affected-systems rule matcher recognizes only the fixed
phrasing `The finance system (...) is crashing` (with a newline-free
middle); any content with no such substring yields the sentinel
`"Not Found"`. -/
theorem C9_affected_systems_fixed_phrase :
    ∀ content : List Char,
      (¬ ∃ u v w : List Char,
          content = u ++ ((("The finance system (").toList) ++
            (v ++ (((") is crashing").toList) ++ w))) ∧ '\n' ∉ v) →
      extract_affected_systems content = ("Not Found").toList := by
  intro c hno
  cases hs : searchPat false false (("The finance system (").toList)
      [((") is crashing").toList)] c with
  | none => unfold extract_affected_systems; rw [hs]
  | some cap =>
    exfalso
    obtain ⟨u, t, r, htm, heq, hnl⟩ := searchPat_sound _ _ _ _ hs
    rcases List.mem_singleton.mp htm with rfl
    exact hno ⟨u, cap, r, heq, hnl⟩

/-- Witness for `C9_affected_systems_fixed_phrase` at empty content. -/
theorem C9_affected_systems_fixed_phrase_witness :
    extract_affected_systems [] = ("Not Found").toList := by
  apply C9_affected_systems_fixed_phrase
  rintro ⟨u, v, w, heq, -⟩
  have h0 := heq.symm
  rw [List.append_eq_nil] at h0
  obtain ⟨-, h1⟩ := h0
  rw [List.append_eq_nil] at h1
  exact absurd h1.1 (by decide)

end OpenGlpi
